import Mathlib

/-!
Shallow embedding of `tensorflow/compiler/xla/service/shaped_buffer.cc`:
the `ShapedBuffer` view type (shape pair + buffer tree + platform/ordinal)
and the owning `ScopedShapedBuffer` variant (allocator reference, dedup
deallocation, move-only ownership transfer, `release`).

Modelling conventions:
- Device addresses are `Nat`; address 0 is the null pointer, so a
  default-constructed `se::DeviceMemoryBase` is `⟨0, 0⟩` and `is_null`
  tests the address against 0, exactly as `opaque_ == nullptr` does.
- The shape system and the platform registry are external collaborators
  (spec section 1); their values are opaque scalars here because no
  operation of this file inspects them - it only stores and moves them.
- C++ object identity matters for one invariant only: the buffer tree
  holds a pointer to the shape object that defines its structure
  (`buffers_(&on_device_shape_)`, repointed by `replace_shape_ptr` on
  every move).  Each `ShapedBuffer` instance therefore carries
  `shape_addr`, the address of its own `on_device_shape_` field, and the
  tree records which such address its internal shape pointer holds.
  A move names the destination's fresh `shape_addr` explicitly.
- The external allocator is a parameter `alloc : AllocFn` giving the
  success/failure of each `Deallocate(device_ordinal, handle)` call; an
  operation that deallocates returns the list of calls it issued, plus a
  `fatal` flag modelling the `TF_CHECK_OK` process abort on failure.
-/

/-- `se::DeviceMemoryBase`: an (address, size) pair; address 0 is null. -/
structure DeviceMemoryBase where
  addr : Nat
  size : Nat
deriving DecidableEq

/-- `DeviceMemoryBase::is_null()`: true iff the address is the null pointer. -/
def DeviceMemoryBase.is_null (m : DeviceMemoryBase) : Bool :=
  m.addr == 0

/-- A default constructed `se::DeviceMemoryBase` is a null pointer (source
comment in `ShapedBuffer::clear`). -/
def DeviceMemoryBase.nullBase : DeviceMemoryBase :=
  ⟨0, 0⟩

/-- `xla::ShapeIndex`: a path of child indices into a nested shape. -/
abbrev ShapeIndex := List Nat

/-- `xla::Shape` is an external collaborator; its contents are never
inspected by this file, only stored and moved, so it is opaque here. -/
abbrev Shape := Nat

/-- `se::Platform*`: an opaque non-owning reference into a process-wide
registry. -/
abbrev Platform := Nat

/-- `xla::ShapeTree<se::DeviceMemoryBase>`: association list from every
subshape position (in fixed traversal order) to a handle, plus the
internal pointer to the `Shape` object that defines its structure
(recorded as the `shape_addr` of the owning instance it points into). -/
structure ShapeTree where
  shape_ptr : Nat
  entries : List (ShapeIndex × DeviceMemoryBase)
deriving DecidableEq

/-- `ShapeTree::replace_shape_ptr`: repoint the internal shape pointer. -/
def ShapeTree.replace_shape_ptr (t : ShapeTree) (p : Nat) : ShapeTree :=
  { t with shape_ptr := p }

/-- State of a `ShapeTree` after being moved from: the node storage
(a `std::vector`) is left empty; the shape pointer member is untouched. -/
def ShapeTree.movedFrom (t : ShapeTree) : ShapeTree :=
  { t with entries := [] }

/-- Modelled from the spec: the default-constructed
`ShapeTree<se::DeviceMemoryBase>()` assigned by `release()` (the ShapeTree
implementation is not part of this file's sources).  Spec 4.2: `release`
"clears this wrapper's own tree to an empty/no-handle state". -/
def ShapeTree.defaultTree : ShapeTree :=
  ⟨0, []⟩

/-- `xla::ShapedBuffer`: shapes, platform, device ordinal and buffer tree.
`shape_addr` is the address of this instance's own `on_device_shape_`
field (see the modelling conventions above). -/
structure ShapedBuffer where
  on_host_shape : Shape
  on_device_shape : Shape
  platform : Platform
  device_ordinal : Int
  buffers : ShapeTree
  shape_addr : Nat
deriving DecidableEq

/-- `ShapedBuffer::ShapedBuffer(ShapedBuffer&& s)`: member-wise move, then
`buffers_.replace_shape_ptr(&on_device_shape_)` so the tree does not keep
pointing into `s`.  `dst_addr` is the address of the new instance's
`on_device_shape_` field.  Returns (moved-to instance, moved-from `s`). -/
def ShapedBuffer.moveConstruct (s : ShapedBuffer) (dst_addr : Nat) :
    ShapedBuffer × ShapedBuffer :=
  let dst : ShapedBuffer :=
    { on_host_shape := s.on_host_shape
      on_device_shape := s.on_device_shape
      platform := s.platform
      device_ordinal := s.device_ordinal
      buffers := s.buffers.replace_shape_ptr dst_addr
      shape_addr := dst_addr }
  (dst, { s with buffers := s.buffers.movedFrom })

/-- `ShapedBuffer::operator=(ShapedBuffer&& s)`: member-wise move
assignment, then `buffers_.replace_shape_ptr(&on_device_shape_)`; the
destination object does not itself relocate, so it keeps its own
`shape_addr`.  Returns (assigned-to destination, moved-from source). -/
def ShapedBuffer.moveAssign (dst src : ShapedBuffer) :
    ShapedBuffer × ShapedBuffer :=
  let d : ShapedBuffer :=
    { on_host_shape := src.on_host_shape
      on_device_shape := src.on_device_shape
      platform := src.platform
      device_ordinal := src.device_ordinal
      buffers := src.buffers.replace_shape_ptr dst.shape_addr
      shape_addr := dst.shape_addr }
  (d, { src with buffers := src.buffers.movedFrom })

/-- `ShapedBuffer::clear()`: set every handle in the tree to a default
constructed (null) `DeviceMemoryBase`, leaving the keys intact. -/
def ShapedBuffer.clear (b : ShapedBuffer) : ShapedBuffer :=
  { b with buffers :=
      { b.buffers with
        entries := b.buffers.entries.map fun p => (p.1, DeviceMemoryBase.nullBase) } }

/-- Behaviour of the external `DeviceMemoryAllocator`'s `Deallocate`:
given the device ordinal and the handle, did the call succeed? -/
abbrev AllocFn := Int → DeviceMemoryBase → Bool

/-- Outcome of a deallocation walk: the `(device_ordinal, handle)` calls
issued to the allocator, in order, and whether `TF_CHECK_OK` aborted the
process on a failed call (`fatal = true`; the failing call is the last
one issued and no further tree position is processed). -/
structure DeallocResult where
  calls : List (Int × DeviceMemoryBase)
  fatal : Bool
deriving DecidableEq

/-- The loop of `ScopedShapedBuffer::Deallocate`: walk the tree entries in
order; for each handle that is non-null and whose address was not yet
inserted into `deallocated_ptrs` (`seen`), call the allocator and record
the address; `TF_CHECK_OK` aborts on the first failing call. -/
def deallocLoop (alloc : AllocFn) (ord : Int) :
    List (ShapeIndex × DeviceMemoryBase) → List Nat → DeallocResult
  | [], _ => ⟨[], false⟩
  | (_, m) :: rest, seen =>
    if m.is_null = false ∧ m.addr ∉ seen then
      if alloc ord m then
        ⟨(ord, m) :: (deallocLoop alloc ord rest (m.addr :: seen)).calls,
          (deallocLoop alloc ord rest (m.addr :: seen)).fatal⟩
      else ⟨[(ord, m)], true⟩
    else deallocLoop alloc ord rest seen

/-- `xla::ScopedShapedBuffer`: a `ShapedBuffer` plus an allocator
reference; `none` models the null `allocator_` of a moved-from instance. -/
structure ScopedShapedBuffer extends ShapedBuffer where
  allocator : Option Nat
deriving DecidableEq

/-- `ScopedShapedBuffer::Deallocate()`: no-op when `allocator_` is null;
otherwise run the dedup walk over the tree.  The object's own state is
not modified (handles are not re-nulled, `allocator_` stays set), so the
instance is returned unchanged alongside the calls issued. -/
def ScopedShapedBuffer.Deallocate (alloc : AllocFn) (b : ScopedShapedBuffer) :
    ScopedShapedBuffer × DeallocResult :=
  match b.allocator with
  | none => (b, ⟨[], false⟩)
  | some _ => (b, deallocLoop alloc b.device_ordinal b.buffers.entries [])

/-- `ScopedShapedBuffer::~ScopedShapedBuffer()`: calls `Deallocate()`;
these are the allocator calls destruction performs. -/
def ScopedShapedBuffer.destructor (alloc : AllocFn) (b : ScopedShapedBuffer) :
    DeallocResult :=
  (b.Deallocate alloc).2

/-- `ScopedShapedBuffer::ScopedShapedBuffer(ScopedShapedBuffer&& s)`:
base-class move (with the shape-pointer repoint), copy `allocator_`, then
null out `s.allocator_` so `s`'s destructor frees nothing. -/
def ScopedShapedBuffer.moveConstruct (s : ScopedShapedBuffer) (dst_addr : Nat) :
    ScopedShapedBuffer × ScopedShapedBuffer :=
  let p := s.toShapedBuffer.moveConstruct dst_addr
  (⟨p.1, s.allocator⟩, ⟨p.2, none⟩)

/-- `ScopedShapedBuffer::operator=(ScopedShapedBuffer&& s)` for distinct
objects: `Deallocate()` the destination's current buffers first, then
base-class move assignment, copy `allocator_`, null out `s.allocator_`.
Returns (assigned destination, moved-from source, calls of the initial
`Deallocate()`). -/
def ScopedShapedBuffer.moveAssign (alloc : AllocFn)
    (dst src : ScopedShapedBuffer) :
    ScopedShapedBuffer × ScopedShapedBuffer × DeallocResult :=
  let r := (dst.Deallocate alloc).2
  let p := ShapedBuffer.moveAssign dst.toShapedBuffer src.toShapedBuffer
  (⟨p.1, src.allocator⟩, ⟨p.2, none⟩, r)

/-- `ScopedShapedBuffer::operator=(ScopedShapedBuffer&& s)` executed with
`&s == this` (self-move-assignment).  Tracing the body under aliasing:
`Deallocate()` runs on the current state; the base self-move-assignment
leaves each member holding its own (valid) value and the final
`replace_shape_ptr(&on_device_shape_)` repoints the tree at the
instance's own shape field; `allocator_ = s.allocator_` reads the
instance's own member back; `s.allocator_ = nullptr` then nulls this very
member.  Returns (resulting state, calls of the `Deallocate()`). -/
def ScopedShapedBuffer.selfMoveAssign (alloc : AllocFn)
    (b : ScopedShapedBuffer) : ScopedShapedBuffer × DeallocResult :=
  let r := (b.Deallocate alloc).2
  let base :=
    { b.toShapedBuffer with buffers := b.buffers.replace_shape_ptr b.shape_addr }
  (⟨base, none⟩, r)

/-- `ScopedShapedBuffer::release()`: move-construct a plain `ShapedBuffer`
from `*this` (base slice), then assign a default-constructed `ShapeTree`
to `buffers_`; `allocator_` is left untouched.  `ret_addr` is the address
of the returned object's `on_device_shape_` field. -/
def ScopedShapedBuffer.release (b : ScopedShapedBuffer) (ret_addr : Nat) :
    ShapedBuffer × ScopedShapedBuffer :=
  let p := b.toShapedBuffer.moveConstruct ret_addr
  (p.1, ⟨{ p.2 with buffers := ShapeTree.defaultTree }, b.allocator⟩)

/-- `ScopedShapedBuffer::clear()` is the inherited `ShapedBuffer::clear`. -/
def ScopedShapedBuffer.clear (b : ScopedShapedBuffer) : ScopedShapedBuffer :=
  ⟨b.toShapedBuffer.clear, b.allocator⟩

/-- Addresses of the handles passed to the allocator, in call order. -/
def callAddrs (r : DeallocResult) : List Nat :=
  r.calls.map fun c => c.2.addr

/-- Addresses of the handles stored in a list of tree entries. -/
def entryAddrs (es : List (ShapeIndex × DeviceMemoryBase)) : List Nat :=
  es.map fun e => e.2.addr

/-- An allocator whose `Deallocate` always succeeds. -/
def allocOK : AllocFn := fun _ _ => true

/-- A handle is non-null exactly when its address is not the null address. -/
theorem DeviceMemoryBase.is_null_eq_false_iff (m : DeviceMemoryBase) :
    m.is_null = false ↔ m.addr ≠ 0 := by
  simp [DeviceMemoryBase.is_null]

theorem deallocLoop_nil (alloc : AllocFn) (ord : Int) (seen : List Nat) :
    deallocLoop alloc ord [] seen = ⟨[], false⟩ := rfl

theorem deallocLoop_cons (alloc : AllocFn) (ord : Int) (i : ShapeIndex)
    (m : DeviceMemoryBase) (rest : List (ShapeIndex × DeviceMemoryBase))
    (seen : List Nat) :
    deallocLoop alloc ord ((i, m) :: rest) seen =
      if m.is_null = false ∧ m.addr ∉ seen then
        if alloc ord m then
          ⟨(ord, m) :: (deallocLoop alloc ord rest (m.addr :: seen)).calls,
            (deallocLoop alloc ord rest (m.addr :: seen)).fatal⟩
        else ⟨[(ord, m)], true⟩
      else deallocLoop alloc ord rest seen := by
  simp [deallocLoop]

theorem deallocLoop_proc (alloc : AllocFn) (ord : Int) (i : ShapeIndex)
    (m : DeviceMemoryBase) (rest : List (ShapeIndex × DeviceMemoryBase))
    (seen : List Nat) (h1 : m.is_null = false ∧ m.addr ∉ seen)
    (h2 : alloc ord m = true) :
    deallocLoop alloc ord ((i, m) :: rest) seen =
      ⟨(ord, m) :: (deallocLoop alloc ord rest (m.addr :: seen)).calls,
        (deallocLoop alloc ord rest (m.addr :: seen)).fatal⟩ := by
  rw [deallocLoop_cons, if_pos h1, if_pos h2]

theorem deallocLoop_fail (alloc : AllocFn) (ord : Int) (i : ShapeIndex)
    (m : DeviceMemoryBase) (rest : List (ShapeIndex × DeviceMemoryBase))
    (seen : List Nat) (h1 : m.is_null = false ∧ m.addr ∉ seen)
    (h2 : alloc ord m = false) :
    deallocLoop alloc ord ((i, m) :: rest) seen = ⟨[(ord, m)], true⟩ := by
  rw [deallocLoop_cons, if_pos h1, if_neg (by simp [h2])]

theorem deallocLoop_skip (alloc : AllocFn) (ord : Int) (i : ShapeIndex)
    (m : DeviceMemoryBase) (rest : List (ShapeIndex × DeviceMemoryBase))
    (seen : List Nat) (h1 : ¬(m.is_null = false ∧ m.addr ∉ seen)) :
    deallocLoop alloc ord ((i, m) :: rest) seen =
      deallocLoop alloc ord rest seen := by
  rw [deallocLoop_cons, if_neg h1]

theorem callAddrs_mk (l : List (Int × DeviceMemoryBase)) (f : Bool) :
    callAddrs ⟨l, f⟩ = l.map fun c => c.2.addr := rfl

theorem callAddrs_proc_eq (ord : Int) (m : DeviceMemoryBase)
    (t : DeallocResult) :
    callAddrs ⟨(ord, m) :: t.calls, t.fatal⟩ = m.addr :: callAddrs t := rfl

theorem entryAddrs_cons (i : ShapeIndex) (m : DeviceMemoryBase)
    (rest : List (ShapeIndex × DeviceMemoryBase)) :
    entryAddrs ((i, m) :: rest) = m.addr :: entryAddrs rest := rfl

/-- With an always-succeeding allocator, the walk calls the allocator on
exactly the non-null addresses present among the entries and not yet in
the seen set. -/
theorem mem_callAddrs_deallocLoop (alloc : AllocFn)
    (hok : ∀ o m, alloc o m = true) (ord : Int)
    (es : List (ShapeIndex × DeviceMemoryBase)) (seen : List Nat) (p : Nat) :
    p ∈ callAddrs (deallocLoop alloc ord es seen) ↔
      p ≠ 0 ∧ p ∈ entryAddrs es ∧ p ∉ seen := by
  induction es generalizing seen with
  | nil => simp [deallocLoop_nil, callAddrs, entryAddrs]
  | cons e rest ih =>
    obtain ⟨i, m⟩ := e
    by_cases h1 : m.is_null = false ∧ m.addr ∉ seen
    · rw [deallocLoop_proc _ _ _ _ _ _ h1 (hok ord m), callAddrs_proc_eq,
        entryAddrs_cons, List.mem_cons, List.mem_cons, ih (m.addr :: seen)]
      have hm0 : m.addr ≠ 0 := (DeviceMemoryBase.is_null_eq_false_iff m).mp h1.1
      constructor
      · rintro (rfl | ⟨hp0, hpr, hps⟩)
        · exact ⟨hm0, Or.inl rfl, h1.2⟩
        · rw [List.mem_cons] at hps
          push_neg at hps
          exact ⟨hp0, Or.inr hpr, hps.2⟩
      · rintro ⟨hp0, hpe, hps⟩
        by_cases hpm : p = m.addr
        · exact Or.inl hpm
        · rcases hpe with rfl | hpr
          · exact absurd rfl hpm
          · refine Or.inr ⟨hp0, hpr, ?_⟩
            rw [List.mem_cons]
            push_neg
            exact ⟨hpm, hps⟩
    · rw [deallocLoop_skip _ _ _ _ _ _ h1, entryAddrs_cons, ih seen,
        List.mem_cons]
      push_neg at h1
      constructor
      · rintro ⟨hp0, hpr, hps⟩
        exact ⟨hp0, Or.inr hpr, hps⟩
      · rintro ⟨hp0, hpe, hps⟩
        rcases hpe with rfl | hpr
        · have hnn : m.is_null = false :=
            (DeviceMemoryBase.is_null_eq_false_iff m).mpr hp0
          exact absurd (h1 hnn) hps
        · exact ⟨hp0, hpr, hps⟩

/-- No address passed to the allocator was already in the seen set when
the walk started (for any allocator behaviour, including failures). -/
theorem not_mem_seen_of_mem_callAddrs (alloc : AllocFn) (ord : Int)
    (es : List (ShapeIndex × DeviceMemoryBase)) :
    ∀ (seen : List Nat) (p : Nat),
      p ∈ callAddrs (deallocLoop alloc ord es seen) → p ∉ seen := by
  induction es with
  | nil =>
    intro seen p hp
    simp [deallocLoop_nil, callAddrs] at hp
  | cons e rest ih =>
    intro seen p hp
    obtain ⟨i, m⟩ := e
    by_cases h1 : m.is_null = false ∧ m.addr ∉ seen
    · cases h2 : alloc ord m with
      | true =>
        rw [deallocLoop_proc _ _ _ _ _ _ h1 h2, callAddrs_proc_eq,
          List.mem_cons] at hp
        rcases hp with rfl | hp
        · exact h1.2
        · have hns := ih _ _ hp
          rw [List.mem_cons] at hns
          push_neg at hns
          exact hns.2
      | false =>
        rw [deallocLoop_fail _ _ _ _ _ _ h1 h2] at hp
        simp only [callAddrs_mk, List.map_cons, List.map_nil,
          List.mem_singleton] at hp
        subst hp
        exact h1.2
    · rw [deallocLoop_skip _ _ _ _ _ _ h1] at hp
      exact ih _ _ hp

/-- Within one walk no address is passed to the allocator twice (for any
allocator behaviour). -/
theorem nodup_callAddrs_deallocLoop (alloc : AllocFn) (ord : Int)
    (es : List (ShapeIndex × DeviceMemoryBase)) :
    ∀ seen : List Nat, (callAddrs (deallocLoop alloc ord es seen)).Nodup := by
  induction es with
  | nil =>
    intro seen
    simp [deallocLoop_nil, callAddrs]
  | cons e rest ih =>
    intro seen
    obtain ⟨i, m⟩ := e
    by_cases h1 : m.is_null = false ∧ m.addr ∉ seen
    · cases h2 : alloc ord m with
      | true =>
        rw [deallocLoop_proc _ _ _ _ _ _ h1 h2, callAddrs_proc_eq]
        refine List.nodup_cons.mpr ⟨?_, ih _⟩
        intro hmem
        exact not_mem_seen_of_mem_callAddrs alloc ord rest _ _ hmem
          (List.mem_cons_self _ _)
      | false =>
        rw [deallocLoop_fail _ _ _ _ _ _ h1 h2]
        simp [callAddrs]
    · rw [deallocLoop_skip _ _ _ _ _ _ h1]
      exact ih _

theorem mem_callAddrs_of_mem_calls (r : DeallocResult)
    (c : Int × DeviceMemoryBase) (hc : c ∈ r.calls) :
    c.2.addr ∈ callAddrs r :=
  List.mem_map_of_mem _ hc

/-- The calls issued are a subsequence of the walked entries (the walk's
ordinal paired with each entry's handle): calls follow traversal order. -/
theorem deallocLoop_calls_sublist (alloc : AllocFn) (ord : Int)
    (es : List (ShapeIndex × DeviceMemoryBase)) :
    ∀ seen : List Nat, (deallocLoop alloc ord es seen).calls.Sublist
      (es.map fun e => (ord, e.2)) := by
  induction es with
  | nil =>
    intro seen
    simp [deallocLoop_nil]
  | cons e rest ih =>
    intro seen
    obtain ⟨i, m⟩ := e
    by_cases h1 : m.is_null = false ∧ m.addr ∉ seen
    · cases h2 : alloc ord m with
      | true =>
        rw [deallocLoop_proc _ _ _ _ _ _ h1 h2]
        simp only [List.map_cons]
        exact List.Sublist.cons₂ _ (ih _)
      | false =>
        rw [deallocLoop_fail _ _ _ _ _ _ h1 h2]
        simp only [List.map_cons]
        exact List.Sublist.cons₂ _ (List.nil_sublist _)
    · rw [deallocLoop_skip _ _ _ _ _ _ h1]
      simp only [List.map_cons]
      exact List.Sublist.cons _ (ih _)

/-- Every call issued carries the walk's device ordinal and a non-null
handle: the allocator is never invoked on a null handle. -/
theorem deallocLoop_calls_shape (alloc : AllocFn) (ord : Int)
    (es : List (ShapeIndex × DeviceMemoryBase)) :
    ∀ seen : List Nat, ∀ c ∈ (deallocLoop alloc ord es seen).calls,
      c.1 = ord ∧ c.2.is_null = false := by
  induction es with
  | nil =>
    intro seen c hc
    simp [deallocLoop_nil] at hc
  | cons e rest ih =>
    intro seen c hc
    obtain ⟨i, m⟩ := e
    by_cases h1 : m.is_null = false ∧ m.addr ∉ seen
    · cases h2 : alloc ord m with
      | true =>
        rw [deallocLoop_proc _ _ _ _ _ _ h1 h2] at hc
        rcases List.mem_cons.mp hc with rfl | hc
        · exact ⟨rfl, h1.1⟩
        · exact ih _ c hc
      | false =>
        rw [deallocLoop_fail _ _ _ _ _ _ h1 h2] at hc
        simp only [List.mem_singleton] at hc
        subst hc
        exact ⟨rfl, h1.1⟩
    · rw [deallocLoop_skip _ _ _ _ _ _ h1] at hc
      exact ih _ c hc

/-- Each call passes the first handle in traversal order carrying its
address: an aliased address is deallocated through the first handle
encountered with it. -/
theorem deallocLoop_calls_find_first (alloc : AllocFn) (ord : Int)
    (es : List (ShapeIndex × DeviceMemoryBase)) :
    ∀ seen : List Nat, ∀ c ∈ (deallocLoop alloc ord es seen).calls,
      ∃ i, es.find? (fun e => e.2.addr == c.2.addr) = some (i, c.2) := by
  induction es with
  | nil =>
    intro seen c hc
    simp [deallocLoop_nil] at hc
  | cons e rest ih =>
    intro seen c hc
    obtain ⟨i, m⟩ := e
    by_cases h1 : m.is_null = false ∧ m.addr ∉ seen
    · cases h2 : alloc ord m with
      | true =>
        rw [deallocLoop_proc _ _ _ _ _ _ h1 h2] at hc
        rcases List.mem_cons.mp hc with rfl | hc
        · exact ⟨i, by rw [List.find?_cons_of_pos _ (by simp)]⟩
        · have hns := not_mem_seen_of_mem_callAddrs alloc ord rest
            (m.addr :: seen) c.2.addr
            (mem_callAddrs_of_mem_calls _ c hc)
          rw [List.mem_cons] at hns
          push_neg at hns
          rw [List.find?_cons_of_neg _ (by simp; exact fun h => hns.1 h.symm)]
          exact ih _ c hc
      | false =>
        rw [deallocLoop_fail _ _ _ _ _ _ h1 h2] at hc
        simp only [List.mem_singleton] at hc
        subst hc
        exact ⟨i, by rw [List.find?_cons_of_pos _ (by simp)]⟩
    · rw [deallocLoop_skip _ _ _ _ _ _ h1] at hc
      have hcsh := deallocLoop_calls_shape alloc ord rest seen c hc
      have hne : m.addr ≠ c.2.addr := by
        push_neg at h1
        by_cases hnn : m.is_null = false
        · have hseen := h1 hnn
          have hns := not_mem_seen_of_mem_callAddrs alloc ord rest seen
            c.2.addr (mem_callAddrs_of_mem_calls _ c hc)
          intro heq
          rw [heq] at hseen
          exact hns hseen
        · have hm0 : m.addr = 0 := by
            rcases Bool.eq_false_or_eq_true m.is_null with ht | hf
            · simpa [DeviceMemoryBase.is_null] using ht
            · exact absurd hf hnn
          have hc0 : c.2.addr ≠ 0 :=
            (DeviceMemoryBase.is_null_eq_false_iff c.2).mp hcsh.2
          rw [hm0]
          exact fun h => hc0 h.symm
      rw [List.find?_cons_of_neg _ (by simp; exact hne)]
      exact ih _ c hc

/-- When the walk aborts (`TF_CHECK_OK` fires), the failing call is the
last one issued and every earlier call had succeeded. -/
theorem deallocLoop_fatal_decomp (alloc : AllocFn) (ord : Int)
    (es : List (ShapeIndex × DeviceMemoryBase)) :
    ∀ seen : List Nat, (deallocLoop alloc ord es seen).fatal = true →
      ∃ l c, (deallocLoop alloc ord es seen).calls = l ++ [c] ∧
        alloc c.1 c.2 = false ∧ ∀ x ∈ l, alloc x.1 x.2 = true := by
  induction es with
  | nil =>
    intro seen h
    simp [deallocLoop_nil] at h
  | cons e rest ih =>
    intro seen h
    obtain ⟨i, m⟩ := e
    by_cases h1 : m.is_null = false ∧ m.addr ∉ seen
    · cases h2 : alloc ord m with
      | true =>
        rw [deallocLoop_proc _ _ _ _ _ _ h1 h2] at h ⊢
        have h' : (deallocLoop alloc ord rest (m.addr :: seen)).fatal = true := h
        obtain ⟨l, c, hcalls, hcf, hl⟩ := ih _ h'
        refine ⟨(ord, m) :: l, c, ?_, hcf, ?_⟩
        · show (ord, m) :: (deallocLoop alloc ord rest (m.addr :: seen)).calls =
            ((ord, m) :: l) ++ [c]
          rw [hcalls]
          rfl
        · intro x hx
          rcases List.mem_cons.mp hx with rfl | hx
          · exact h2
          · exact hl x hx
      | false =>
        rw [deallocLoop_fail _ _ _ _ _ _ h1 h2]
        exact ⟨[], (ord, m), rfl, h2, by simp⟩
    · rw [deallocLoop_skip _ _ _ _ _ _ h1] at h ⊢
      exact ih _ h

/-- If some issued call failed, the walk aborted. -/
theorem deallocLoop_fatal_of_fail (alloc : AllocFn) (ord : Int)
    (es : List (ShapeIndex × DeviceMemoryBase)) :
    ∀ seen : List Nat, ∀ c ∈ (deallocLoop alloc ord es seen).calls,
      alloc c.1 c.2 = false → (deallocLoop alloc ord es seen).fatal = true := by
  induction es with
  | nil =>
    intro seen c hc
    simp [deallocLoop_nil] at hc
  | cons e rest ih =>
    intro seen c hc hf
    obtain ⟨i, m⟩ := e
    by_cases h1 : m.is_null = false ∧ m.addr ∉ seen
    · cases h2 : alloc ord m with
      | true =>
        rw [deallocLoop_proc _ _ _ _ _ _ h1 h2] at hc ⊢
        rcases List.mem_cons.mp hc with rfl | hc
        · rw [h2] at hf
          exact absurd hf (by simp)
        · show (deallocLoop alloc ord rest (m.addr :: seen)).fatal = true
          exact ih _ c hc hf
      | false =>
        rw [deallocLoop_fail _ _ _ _ _ _ h1 h2]
    · rw [deallocLoop_skip _ _ _ _ _ _ h1] at hc ⊢
      exact ih _ c hc hf

/-- The walk aborts exactly when one of its issued calls failed. -/
theorem deallocLoop_fatal_iff (alloc : AllocFn) (ord : Int)
    (es : List (ShapeIndex × DeviceMemoryBase)) (seen : List Nat) :
    (deallocLoop alloc ord es seen).fatal = true ↔
      ∃ c ∈ (deallocLoop alloc ord es seen).calls, alloc c.1 c.2 = false := by
  constructor
  · intro h
    obtain ⟨l, c, hcalls, hcf, _⟩ := deallocLoop_fatal_decomp alloc ord es seen h
    exact ⟨c, by simp [hcalls], hcf⟩
  · rintro ⟨c, hc, hcf⟩
    exact deallocLoop_fatal_of_fail alloc ord es seen c hc hcf

/-- A run with a possibly-failing allocator issues a prefix of the calls
the always-succeeding walk would issue: once the walk aborts, no later
tree position is processed. -/
theorem deallocLoop_calls_take (alloc : AllocFn) (ord : Int)
    (es : List (ShapeIndex × DeviceMemoryBase)) :
    ∀ seen : List Nat, ∃ k, (deallocLoop alloc ord es seen).calls =
      (deallocLoop allocOK ord es seen).calls.take k := by
  induction es with
  | nil =>
    intro seen
    exact ⟨0, by simp [deallocLoop_nil]⟩
  | cons e rest ih =>
    intro seen
    obtain ⟨i, m⟩ := e
    by_cases h1 : m.is_null = false ∧ m.addr ∉ seen
    · cases h2 : alloc ord m with
      | true =>
        obtain ⟨k, hk⟩ := ih (m.addr :: seen)
        refine ⟨k + 1, ?_⟩
        rw [deallocLoop_proc _ _ _ _ _ _ h1 h2,
          deallocLoop_proc allocOK _ _ _ _ _ h1 rfl]
        show (ord, m) :: (deallocLoop alloc ord rest (m.addr :: seen)).calls =
          ((ord, m) :: (deallocLoop allocOK ord rest (m.addr :: seen)).calls).take (k + 1)
        rw [List.take_succ_cons, hk]
      | false =>
        refine ⟨1, ?_⟩
        rw [deallocLoop_fail _ _ _ _ _ _ h1 h2,
          deallocLoop_proc allocOK _ _ _ _ _ h1 rfl]
        show [(ord, m)] =
          ((ord, m) :: (deallocLoop allocOK ord rest (m.addr :: seen)).calls).take 1
        rw [List.take_succ_cons, List.take_zero]
    · obtain ⟨k, hk⟩ := ih seen
      refine ⟨k, ?_⟩
      rw [deallocLoop_skip _ _ _ _ _ _ h1, deallocLoop_skip allocOK _ _ _ _ _ h1]
      exact hk

/-- A walk over entries whose handles are all null issues no call. -/
theorem deallocLoop_all_null (alloc : AllocFn) (ord : Int)
    (es : List (ShapeIndex × DeviceMemoryBase)) :
    ∀ seen : List Nat, (∀ e ∈ es, (e.2).is_null = true) →
      deallocLoop alloc ord es seen = ⟨[], false⟩ := by
  induction es with
  | nil =>
    intro seen _
    rfl
  | cons e rest ih =>
    intro seen h
    obtain ⟨i, m⟩ := e
    have hm : m.is_null = true := h (i, m) (List.mem_cons_self _ _)
    rw [deallocLoop_skip _ _ _ _ _ _ (by rw [hm]; simp)]
    exact ih seen fun e he => h e (List.mem_cons_of_mem _ he)

/-- With an always-succeeding allocator, each non-null address among the
entries (and not pre-seen) is passed to the allocator exactly once; any
other address is never passed. -/
theorem count_callAddrs_deallocLoop (alloc : AllocFn)
    (hok : ∀ o m, alloc o m = true) (ord : Int)
    (es : List (ShapeIndex × DeviceMemoryBase)) (seen : List Nat) (p : Nat) :
    (callAddrs (deallocLoop alloc ord es seen)).count p =
      if p ≠ 0 ∧ p ∈ entryAddrs es ∧ p ∉ seen then 1 else 0 := by
  by_cases h : p ≠ 0 ∧ p ∈ entryAddrs es ∧ p ∉ seen
  · rw [if_pos h]
    exact List.count_eq_one_of_mem (nodup_callAddrs_deallocLoop alloc ord es seen)
      ((mem_callAddrs_deallocLoop alloc hok ord es seen p).mpr h)
  · rw [if_neg h]
    exact List.count_eq_zero_of_not_mem
      fun hm => h ((mem_callAddrs_deallocLoop alloc hok ord es seen p).mp hm)

theorem Deallocate_eq_of_some (alloc : AllocFn) (b : ScopedShapedBuffer)
    (a : Nat) (ha : b.allocator = some a) :
    b.Deallocate alloc =
      (b, deallocLoop alloc b.device_ordinal b.buffers.entries []) := by
  simp [ScopedShapedBuffer.Deallocate, ha]

theorem Deallocate_eq_of_none (alloc : AllocFn) (b : ScopedShapedBuffer)
    (ha : b.allocator = none) :
    b.Deallocate alloc = (b, ⟨[], false⟩) := by
  simp [ScopedShapedBuffer.Deallocate, ha]

/-- Concrete sample for the witness theorems: a populated buffer whose
leaf handles include a duplicated (aliased) address, as in the spec's
section 8 scenario.  The tree's shape pointer holds the instance's own
`shape_addr`. -/
def sampleBuffer : ShapedBuffer :=
  { on_host_shape := 10
    on_device_shape := 11
    platform := 1
    device_ordinal := 0
    buffers := ⟨5, [([], DeviceMemoryBase.nullBase), ([0], ⟨4096, 16⟩),
      ([1], ⟨4096, 16⟩), ([2], ⟨8192, 8⟩)]⟩
    shape_addr := 5 }

/-- The sample buffer wrapped with allocator 1. -/
def sampleScoped : ScopedShapedBuffer :=
  ⟨sampleBuffer, some 1⟩

/-- C1: after every move-construction and every move-assignment of a
`ShapedBuffer`, the buffer tree's internal shape pointer points at the
moved-to instance's own `on_device_shape` field; whenever the two
instances' fields live at distinct addresses, it therefore does not
point at the source's `on_device_shape`. -/
theorem c1_move_repoints_shape_ptr (s dst : ShapedBuffer) (a : Nat) :
    ((s.moveConstruct a).1.buffers.shape_ptr = (s.moveConstruct a).1.shape_addr ∧
      (a ≠ s.shape_addr →
        (s.moveConstruct a).1.buffers.shape_ptr ≠ s.shape_addr)) ∧
    ((ShapedBuffer.moveAssign dst s).1.buffers.shape_ptr =
        (ShapedBuffer.moveAssign dst s).1.shape_addr ∧
      (ShapedBuffer.moveAssign dst s).1.shape_addr = dst.shape_addr ∧
      (dst.shape_addr ≠ s.shape_addr →
        (ShapedBuffer.moveAssign dst s).1.buffers.shape_ptr ≠ s.shape_addr)) :=
  ⟨⟨rfl, fun h => h⟩, ⟨rfl, rfl, fun h => h⟩⟩

theorem c1_move_repoints_shape_ptr_witness :
    (7 : Nat) ≠ sampleBuffer.shape_addr ∧
      (sampleBuffer.moveConstruct 7).1.buffers.shape_ptr ≠ sampleBuffer.shape_addr :=
  ⟨by decide,
    (c1_move_repoints_shape_ptr sampleBuffer sampleBuffer 7).1.2 (by decide)⟩

/-- C2: move-constructing `B` from a populated owning `A` transfers
ownership exactly once: the moved-from `A` has a null allocator and its
destruction performs zero allocator calls, while destroying `B` calls
the allocator's `Deallocate` exactly once for every distinct non-null
address of the original tree and never otherwise. -/
theorem c2_ownership_transfers_once (alloc : AllocFn)
    (hok : ∀ o m, alloc o m = true) (A : ScopedShapedBuffer) (a : Nat)
    (hA : A.allocator = some a) (dst_addr : Nat) :
    (A.moveConstruct dst_addr).2.allocator = none ∧
    ((A.moveConstruct dst_addr).2.destructor alloc).calls = [] ∧
    (callAddrs ((A.moveConstruct dst_addr).1.destructor alloc)).Nodup ∧
    (∀ p : Nat, p ∈ callAddrs ((A.moveConstruct dst_addr).1.destructor alloc) ↔
      p ≠ 0 ∧ p ∈ entryAddrs A.buffers.entries) ∧
    (∀ p : Nat, p ≠ 0 → p ∈ entryAddrs A.buffers.entries →
      (callAddrs ((A.moveConstruct dst_addr).1.destructor alloc)).count p = 1) := by
  have hB : (A.moveConstruct dst_addr).1.allocator = some a := hA
  have hA2 : (A.moveConstruct dst_addr).2.allocator = none := rfl
  have hdes : (A.moveConstruct dst_addr).1.destructor alloc =
      deallocLoop alloc A.device_ordinal A.buffers.entries [] := by
    simp only [ScopedShapedBuffer.destructor]
    rw [Deallocate_eq_of_some alloc _ a hB]
    rfl
  refine ⟨rfl, ?_, ?_, ?_, ?_⟩
  · simp only [ScopedShapedBuffer.destructor]
    rw [Deallocate_eq_of_none alloc _ hA2]
  · rw [hdes]
    exact nodup_callAddrs_deallocLoop _ _ _ _
  · intro p
    rw [hdes, mem_callAddrs_deallocLoop alloc hok]
    simp
  · intro p hp0 hpe
    rw [hdes, count_callAddrs_deallocLoop alloc hok,
      if_pos ⟨hp0, hpe, List.not_mem_nil p⟩]

theorem c2_ownership_transfers_once_witness :
    sampleScoped.allocator = some 1 ∧
    ((sampleScoped.moveConstruct 7).2.destructor allocOK).calls = [] ∧
    (callAddrs ((sampleScoped.moveConstruct 7).1.destructor allocOK)).count 4096 = 1 :=
  ⟨rfl,
    (c2_ownership_transfers_once allocOK (fun _ _ => rfl) sampleScoped 1 rfl 7).2.1,
    (c2_ownership_transfers_once allocOK (fun _ _ => rfl) sampleScoped 1 rfl 7).2.2.2.2
      4096 (by decide) (by decide)⟩

/-- C3: within a single `Deallocate` call with a non-null allocator, the
allocator is invoked exactly once for each distinct non-null address of
the tree's handles, never for a null handle, in tree traversal order,
each time with the first handle encountered carrying that address. -/
theorem c3_dealloc_dedup_first_in_order (alloc : AllocFn)
    (hok : ∀ o m, alloc o m = true) (b : ScopedShapedBuffer) (a : Nat)
    (ha : b.allocator = some a) :
    (callAddrs (b.Deallocate alloc).2).Nodup ∧
    (∀ p : Nat, p ∈ callAddrs (b.Deallocate alloc).2 ↔
      p ≠ 0 ∧ p ∈ entryAddrs b.buffers.entries) ∧
    (∀ c ∈ (b.Deallocate alloc).2.calls,
      c.1 = b.device_ordinal ∧ c.2.is_null = false) ∧
    ((b.Deallocate alloc).2.calls.Sublist
      (b.buffers.entries.map fun e => (b.device_ordinal, e.2))) ∧
    (∀ c ∈ (b.Deallocate alloc).2.calls,
      ∃ i, b.buffers.entries.find? (fun e => e.2.addr == c.2.addr) =
        some (i, c.2)) := by
  have hd : (b.Deallocate alloc).2 =
      deallocLoop alloc b.device_ordinal b.buffers.entries [] := by
    rw [Deallocate_eq_of_some alloc b a ha]
  rw [hd]
  refine ⟨nodup_callAddrs_deallocLoop _ _ _ _, ?_,
    deallocLoop_calls_shape _ _ _ _, deallocLoop_calls_sublist _ _ _ _,
    deallocLoop_calls_find_first _ _ _ _⟩
  intro p
  rw [mem_callAddrs_deallocLoop alloc hok]
  simp

theorem c3_dealloc_dedup_first_in_order_witness :
    sampleScoped.allocator = some 1 ∧
    callAddrs (sampleScoped.Deallocate allocOK).2 = [4096, 8192] ∧
    (4096 ∈ callAddrs (sampleScoped.Deallocate allocOK).2 ↔
      4096 ≠ 0 ∧ 4096 ∈ entryAddrs sampleScoped.buffers.entries) :=
  ⟨rfl, by decide,
    (c3_dealloc_dedup_first_in_order allocOK (fun _ _ => rfl) sampleScoped 1
      rfl).2.1 4096⟩

/-- C4: with a null allocator reference (for example after being moved
from), `Deallocate` performs no allocator call, does not abort, and
leaves the instance's entire state unchanged. -/
theorem c4_dealloc_noop_without_allocator (alloc : AllocFn)
    (b : ScopedShapedBuffer) (h : b.allocator = none) :
    b.Deallocate alloc = (b, ⟨[], false⟩) :=
  Deallocate_eq_of_none alloc b h

theorem c4_dealloc_noop_without_allocator_witness :
    (sampleScoped.moveConstruct 7).2.allocator = none ∧
    (sampleScoped.moveConstruct 7).2.Deallocate allocOK =
      ((sampleScoped.moveConstruct 7).2, ⟨[], false⟩) :=
  ⟨rfl, c4_dealloc_noop_without_allocator allocOK _ rfl⟩

/-- C5: move-assignment of a `ScopedShapedBuffer` first deallocates what
the destination previously owned - the calls issued are exactly those of
a `Deallocate()` on the destination's pre-assignment state, covering each
distinct non-null address once when its allocator is non-null - and only
then adopts the source's shapes, tree (repointed at the destination's own
shape field) and allocator; afterwards the source's allocator is null. -/
theorem c5_move_assign_frees_dst_then_adopts (alloc : AllocFn)
    (hok : ∀ o m, alloc o m = true) (dst src : ScopedShapedBuffer) :
    (ScopedShapedBuffer.moveAssign alloc dst src).2.2 =
      (dst.Deallocate alloc).2 ∧
    (∀ a, dst.allocator = some a → ∀ p : Nat,
      p ∈ callAddrs (ScopedShapedBuffer.moveAssign alloc dst src).2.2 ↔
        p ≠ 0 ∧ p ∈ entryAddrs dst.buffers.entries) ∧
    (ScopedShapedBuffer.moveAssign alloc dst src).1.allocator = src.allocator ∧
    (ScopedShapedBuffer.moveAssign alloc dst src).1.on_host_shape =
      src.on_host_shape ∧
    (ScopedShapedBuffer.moveAssign alloc dst src).1.on_device_shape =
      src.on_device_shape ∧
    (ScopedShapedBuffer.moveAssign alloc dst src).1.platform = src.platform ∧
    (ScopedShapedBuffer.moveAssign alloc dst src).1.device_ordinal =
      src.device_ordinal ∧
    (ScopedShapedBuffer.moveAssign alloc dst src).1.buffers.entries =
      src.buffers.entries ∧
    (ScopedShapedBuffer.moveAssign alloc dst src).1.buffers.shape_ptr =
      dst.shape_addr ∧
    (ScopedShapedBuffer.moveAssign alloc dst src).2.1.allocator = none := by
  refine ⟨rfl, ?_, rfl, rfl, rfl, rfl, rfl, rfl, rfl, rfl⟩
  intro a ha p
  have hd : (ScopedShapedBuffer.moveAssign alloc dst src).2.2 =
      deallocLoop alloc dst.device_ordinal dst.buffers.entries [] := by
    show (dst.Deallocate alloc).2 = _
    rw [Deallocate_eq_of_some alloc dst a ha]
  rw [hd, mem_callAddrs_deallocLoop alloc hok]
  simp

theorem c5_move_assign_frees_dst_then_adopts_witness :
    sampleScoped.allocator = some 1 ∧
    (4096 ∈ callAddrs
        (ScopedShapedBuffer.moveAssign allocOK sampleScoped
          ⟨sampleBuffer, none⟩).2.2 ↔
      4096 ≠ 0 ∧ 4096 ∈ entryAddrs sampleScoped.buffers.entries) :=
  ⟨rfl,
    (c5_move_assign_frees_dst_then_adopts allocOK (fun _ _ => rfl) sampleScoped
      ⟨sampleBuffer, none⟩).2.1 1 rfl 4096⟩

/-- C6: `release()` returns a view exposing the original handle at every
tree position together with the original shapes, platform and device
ordinal, while the wrapper's own tree becomes empty and its allocator
reference stays set; destroying the wrapper afterwards performs zero
allocator calls. -/
theorem c6_release_detaches (alloc : AllocFn) (b : ScopedShapedBuffer)
    (ret_addr : Nat) :
    (b.release ret_addr).1.buffers.entries = b.buffers.entries ∧
    (b.release ret_addr).1.on_host_shape = b.on_host_shape ∧
    (b.release ret_addr).1.on_device_shape = b.on_device_shape ∧
    (b.release ret_addr).1.platform = b.platform ∧
    (b.release ret_addr).1.device_ordinal = b.device_ordinal ∧
    (b.release ret_addr).2.buffers.entries = [] ∧
    (b.release ret_addr).2.allocator = b.allocator ∧
    ((b.release ret_addr).2.destructor alloc).calls = [] := by
  refine ⟨rfl, rfl, rfl, rfl, rfl, rfl, rfl, ?_⟩
  cases hb : b.allocator with
  | none =>
    have h : (b.release ret_addr).2.allocator = none := hb
    simp only [ScopedShapedBuffer.destructor]
    rw [Deallocate_eq_of_none alloc _ h]
  | some a =>
    have h : (b.release ret_addr).2.allocator = some a := hb
    simp only [ScopedShapedBuffer.destructor]
    rw [Deallocate_eq_of_some alloc _ a h]
    rfl

/-- C7: `clear()` (on a plain view and on an owning wrapper) nulls every
handle while keeping the tree positions unchanged, and a cleared owning
wrapper's subsequent destruction performs zero allocator calls even if
its handles were previously non-null. -/
theorem c7_clear_nulls_without_freeing (alloc : AllocFn) (sb : ShapedBuffer)
    (b : ScopedShapedBuffer) :
    sb.clear.buffers.entries.map Prod.fst =
      sb.buffers.entries.map Prod.fst ∧
    (∀ e ∈ sb.clear.buffers.entries, e.2 = DeviceMemoryBase.nullBase) ∧
    b.clear.buffers.entries.map Prod.fst = b.buffers.entries.map Prod.fst ∧
    (∀ e ∈ b.clear.buffers.entries, e.2 = DeviceMemoryBase.nullBase) ∧
    (b.clear.destructor alloc).calls = [] := by
  have hnull : ∀ cb : ShapedBuffer,
      ∀ e ∈ cb.clear.buffers.entries, e.2 = DeviceMemoryBase.nullBase := by
    intro cb e he
    simp only [ShapedBuffer.clear] at he
    obtain ⟨x, _, rfl⟩ := List.mem_map.mp he
    rfl
  have hkeys : ∀ cb : ShapedBuffer,
      cb.clear.buffers.entries.map Prod.fst =
        cb.buffers.entries.map Prod.fst := by
    intro cb
    simp [ShapedBuffer.clear, List.map_map, Function.comp]
  refine ⟨hkeys sb, hnull sb, hkeys b.toShapedBuffer, hnull b.toShapedBuffer, ?_⟩
  cases hb : b.allocator with
  | none =>
    have h : b.clear.allocator = none := hb
    simp only [ScopedShapedBuffer.destructor]
    rw [Deallocate_eq_of_none alloc _ h]
  | some a =>
    have h : b.clear.allocator = some a := hb
    simp only [ScopedShapedBuffer.destructor]
    rw [Deallocate_eq_of_some alloc _ a h,
      deallocLoop_all_null alloc _ _ [] ?_]
    · intro e he
      have he2 := hnull b.toShapedBuffer e he
      rw [he2]
      rfl

/-- C8 counterexample: `Deallocate` neither nulls the handles nor clears
the allocator reference, so on the concrete sample a second `Deallocate`
call on the same populated instance passes the distinct non-null address
4096 to the allocator again - across the two calls it is passed twice,
refuting the claimed at-most-once-across-both-calls guarantee. -/
theorem c8_second_dealloc_double_frees :
    ¬((callAddrs (sampleScoped.Deallocate allocOK).2 ++
        callAddrs (((sampleScoped.Deallocate allocOK).1).Deallocate allocOK).2).count
          4096 ≤ 1) := by
  decide

/-- C8 amended: the dedup guarantee is per call only.  `Deallocate` does
not modify the instance, so a second call on the same populated tree
issues exactly the same allocator calls as the first: within each single
call no address is passed twice, but across the two calls every distinct
non-null address is passed once per call - the code does not protect
against cross-call double-freeing. -/
theorem c8_per_call_dedup_second_call_repeats (alloc : AllocFn)
    (b : ScopedShapedBuffer) :
    (callAddrs (b.Deallocate alloc).2).Nodup ∧
    (b.Deallocate alloc).1 = b ∧
    ((b.Deallocate alloc).1.Deallocate alloc).2 = (b.Deallocate alloc).2 := by
  have hstate : (b.Deallocate alloc).1 = b := by
    cases hb : b.allocator with
    | none => rw [Deallocate_eq_of_none alloc b hb]
    | some a => rw [Deallocate_eq_of_some alloc b a hb]
  refine ⟨?_, hstate, by rw [hstate]⟩
  cases hb : b.allocator with
  | none =>
    rw [Deallocate_eq_of_none alloc b hb]
    simp [callAddrs]
  | some a =>
    rw [Deallocate_eq_of_some alloc b a hb]
    exact nodup_callAddrs_deallocLoop _ _ _ _

/-- An allocator that fails exactly on address 4096; used to exercise the
fatal path in the C9 witness. -/
def allocFail : AllocFn := fun _ m => decide (m.addr ≠ 4096)

/-- C9: a failing allocator call during `Deallocate` is neither returned
to the caller nor swallowed: the walk aborts fatally exactly when one of
its issued calls fails, the failing call is the last one issued with all
earlier calls having succeeded, and the calls issued form a prefix of the
full (all-successes) walk, so the remaining tree positions are not
processed. -/
theorem c9_allocator_failure_is_fatal (alloc : AllocFn)
    (b : ScopedShapedBuffer) (a : Nat) (ha : b.allocator = some a) :
    ((b.Deallocate alloc).2.fatal = true ↔
      ∃ c ∈ (b.Deallocate alloc).2.calls, alloc c.1 c.2 = false) ∧
    ((b.Deallocate alloc).2.fatal = true →
      ∃ l c, (b.Deallocate alloc).2.calls = l ++ [c] ∧
        alloc c.1 c.2 = false ∧ ∀ x ∈ l, alloc x.1 x.2 = true) ∧
    (∃ k, (b.Deallocate alloc).2.calls =
      (b.Deallocate allocOK).2.calls.take k) := by
  have hd : ∀ al : AllocFn, (b.Deallocate al).2 =
      deallocLoop al b.device_ordinal b.buffers.entries [] := fun al => by
    rw [Deallocate_eq_of_some al b a ha]
  rw [hd alloc, hd allocOK]
  exact ⟨deallocLoop_fatal_iff _ _ _ _, deallocLoop_fatal_decomp _ _ _ _,
    deallocLoop_calls_take _ _ _ _⟩

theorem c9_allocator_failure_is_fatal_witness :
    sampleScoped.allocator = some 1 ∧
    (sampleScoped.Deallocate allocFail).2.fatal = true :=
  ⟨rfl,
    (c9_allocator_failure_is_fatal allocFail sampleScoped 1 rfl).1.mpr
      ⟨(0, ⟨4096, 16⟩), by decide, by decide⟩⟩

/-- C10: self-move-assignment with a non-null allocator first passes each
distinct non-null address of the tree to the allocator exactly once (the
initial `Deallocate()`), and ends with the instance's allocator reference
null - `s.allocator_ = nullptr` nulls the instance's own member - so its
subsequent destruction performs no further allocator call even though the
tree may still hold the already-freed handle values. -/
theorem c10_self_move_assign_frees_once_then_disowns (alloc : AllocFn)
    (hok : ∀ o m, alloc o m = true) (b : ScopedShapedBuffer) (a : Nat)
    (ha : b.allocator = some a) :
    (callAddrs (b.selfMoveAssign alloc).2).Nodup ∧
    (∀ p : Nat, p ∈ callAddrs (b.selfMoveAssign alloc).2 ↔
      p ≠ 0 ∧ p ∈ entryAddrs b.buffers.entries) ∧
    (∀ p : Nat, p ≠ 0 → p ∈ entryAddrs b.buffers.entries →
      (callAddrs (b.selfMoveAssign alloc).2).count p = 1) ∧
    (b.selfMoveAssign alloc).1.allocator = none ∧
    ((b.selfMoveAssign alloc).1.destructor alloc).calls = [] := by
  have hd : (b.selfMoveAssign alloc).2 =
      deallocLoop alloc b.device_ordinal b.buffers.entries [] := by
    show (b.Deallocate alloc).2 = _
    rw [Deallocate_eq_of_some alloc b a ha]
  have hnone : (b.selfMoveAssign alloc).1.allocator = none := rfl
  refine ⟨?_, ?_, ?_, rfl, ?_⟩
  · rw [hd]
    exact nodup_callAddrs_deallocLoop _ _ _ _
  · intro p
    rw [hd, mem_callAddrs_deallocLoop alloc hok]
    simp
  · intro p hp0 hpe
    rw [hd, count_callAddrs_deallocLoop alloc hok,
      if_pos ⟨hp0, hpe, List.not_mem_nil p⟩]
  · simp only [ScopedShapedBuffer.destructor]
    rw [Deallocate_eq_of_none alloc _ hnone]

theorem c10_self_move_assign_frees_once_then_disowns_witness :
    sampleScoped.allocator = some 1 ∧
    (sampleScoped.selfMoveAssign allocOK).1.allocator = none ∧
    (callAddrs (sampleScoped.selfMoveAssign allocOK).2).count 4096 = 1 :=
  ⟨rfl,
    (c10_self_move_assign_frees_once_then_disowns allocOK (fun _ _ => rfl)
      sampleScoped 1 rfl).2.2.2.1,
    (c10_self_move_assign_frees_once_then_disowns allocOK (fun _ _ => rfl)
      sampleScoped 1 rfl).2.2.1 4096 (by decide) (by decide)⟩
